import Mathlib

/-!
Verification development for `process_pdfs.py` (Adobe-1A): a PDF outline
extractor.  The script `extract_outline_from_pdf` prefers the PDF's native
table of contents (TOC); otherwise it runs a font-statistics heuristic.

Shallow embedding conventions:
* PyMuPDF text spans are modelled by `Span` (text, font name, size, the
  integer style-flags word, and the bounding box); a page's block/line
  nesting is modelled by `Block`/`Page` exactly as traversed by the code.
* Python floats are modelled by `ℚ` (the rounded one-decimal sizes and the
  1.6/1.3/1.1 factors are exact decimals, so no floating-point subtlety
  enters any claim considered here; `round1` uses round-half-up where
  CPython's `round` rounds ties to even, a difference irrelevant below).
* Python strings are modelled by `String`, with ASCII models of
  `str.lower`, `str.strip`, `str.istitle`, `str.isupper`, `str.isnumeric`.
* Statements that can raise are modelled in `Except String`, the error
  being `str(e)`; the `try/except Exception` of the source is the `match`
  in `extract_outline_from_pdf`.
* A Python dict used in insertion order (`font_styles`, `Counter`) is an
  association list in insertion order.
-/

/-- ASCII model of `str.lower()` (`Char.toLower` maps exactly A-Z). -/
def pyLower (s : String) : String := ⟨s.data.map Char.toLower⟩

/-- ASCII model of `str.upper()`. -/
def pyUpper (s : String) : String := ⟨s.data.map Char.toUpper⟩

/-- Model of `str.strip()`: drop whitespace at both ends. -/
def pyStrip (s : String) : String :=
  ⟨((s.data.dropWhile Char.isWhitespace).reverse.dropWhile Char.isWhitespace).reverse⟩

/-- `p.isPrefixOf t` at some position of `t`: model of Python `sub in s`. -/
def listContainsSub (t p : List Char) : Bool :=
  if p.isPrefixOf t then true
  else match t with
    | [] => false
    | _ :: rest => listContainsSub rest p

/-- Model of the Python substring test `sub in s`. -/
def strContains (s sub : String) : Bool := listContainsSub s.data sub.data

/-- Model of `s.startswith(p)`. -/
def pyStartsWith (s p : String) : Bool := p.data.isPrefixOf s.data

/-- ASCII model of `str.isnumeric()`: non-empty and all digits. -/
def pyIsNumeric (s : String) : Bool := !s.data.isEmpty && s.data.all Char.isDigit

/-- Helper for `pyIsTitle`; carries (a cased char was seen, previous char was cased),
mirroring CPython's `istitle` loop restricted to ASCII. -/
def istitleAux : List Char → Bool → Bool → Bool
  | [], casedSeen, _ => casedSeen
  | c :: rest, casedSeen, prevCased =>
    if c.isUpper then
      if prevCased then false else istitleAux rest true true
    else if c.isLower then
      if prevCased then istitleAux rest true true else false
    else istitleAux rest casedSeen false

/-- ASCII model of `str.istitle()`. -/
def pyIsTitle (s : String) : Bool := istitleAux s.data false false

/-- ASCII model of `str.isupper()`: has a cased character and no lowercase one. -/
def pyIsUpper (s : String) : Bool :=
  s.data.any Char.isAlpha && s.data.all (fun c => !c.isLower)

/-- Full match of the regex `^\d+\.\s*$` (line 134 of the source). -/
def matchesNumPeriod (s : String) : Bool :=
  let ds := s.data.takeWhile Char.isDigit
  let rest := s.data.drop ds.length
  !ds.isEmpty &&
    (match rest with
     | '.' :: ws => ws.all Char.isWhitespace
     | _ => false)

/-- Full match of the regex `^[IVXLCDM]+\.$` (line 135 of the source). -/
def matchesRomanPeriod (s : String) : Bool :=
  let isRoman : Char → Bool := fun c => c ∈ ['I', 'V', 'X', 'L', 'C', 'D', 'M']
  let rs := s.data.takeWhile isRoman
  let rest := s.data.drop rs.length
  !rs.isEmpty && rest = ['.']

/-- `round(x, 1)` of the source: one-decimal rounding over `ℚ`. -/
def round1 (q : ℚ) : ℚ := (round (10 * q) : ℤ) / 10

/-- A PyMuPDF text span as the source reads it: `span["text"]`, `span["font"]`,
`span["size"]`, `span["flags"]` (an `int`), `span["bbox"]` (x0, y0, x1, y1). -/
structure Span where
  text : String
  font : String
  size : ℚ
  flags : Int
  bbox : ℚ × ℚ × ℚ × ℚ
deriving DecidableEq

/-- A text block of `page.get_text("dict")["blocks"]`: the source keeps only
blocks with `b["type"] == 0` and iterates `b["lines"]`, then `line["spans"]`. -/
structure Block where
  type : Int
  lines : List (List Span)
deriving DecidableEq

/-- One page: its list of blocks. -/
structure Page where
  blocks : List Block
deriving DecidableEq

/-- The spans of a page in the order the source's nested loops visit them. -/
def Page.spans (p : Page) : List Span :=
  (p.blocks.filter (fun b => b.type = 0)).flatMap (fun b => b.lines.flatten)

/-- A parsed document as the source reads it through `fitz`: optional metadata
title (`None`/missing modelled as `none`; Python's truthiness test on the
string is explicit in `resolveMetaTitle`), the native TOC from `doc.get_toc()`
as (level, text, page) triples, and the pages. -/
structure Doc where
  metaTitle : Option String
  toc : List (Int × String × Int)
  pages : List Page
deriving DecidableEq

/-- All spans of a document in visit order (both passes traverse pages in
increasing `page_num` order). -/
def allSpans (pages : List Page) : List Span := pages.flatMap Page.spans

/-- One output entry.  The source emits dicts; on the TOC path they hold the
keys level/text/page, on the heuristic path the candidate dict, which also
holds `"bbox"`, is appended to `outline_entries` unchanged (line 175).  The
`bbox` field is `none` exactly when the emitted dict has no `"bbox"` key. -/
structure Entry where
  level : String
  text : String
  page : Int
  bbox : Option (ℚ × ℚ × ℚ × ℚ)
deriving DecidableEq

/-- The returned artifact `{"title": ..., "outline": [...]}`. -/
structure Artifact where
  title : String
  outline : List Entry
deriving DecidableEq

/-- Lines 190-199: the artifact returned from the `except` handlers. -/
def errorArtifact (stem msg : String) : Artifact :=
  { title := "Processing Error for " ++ stem
    outline := [{ level := "H1", text := "Error: " ++ msg, page := 1, bbox := none }] }

/-- The message CPython raises for `"b" in flags` when `flags` is an `int`. -/
def intNotIterableMsg : String := "argument of type 'int' is not iterable"

/-- Lines 68 and 130:
`is_bold = "bold" in font_name.lower() or "b" in span["flags"] or "b" in font_name.lower().split('-')`.
`span["flags"]` is an `int`, so whenever the first disjunct is false the
second raises `TypeError`; the third disjunct (membership of `"b"` in the
hyphen-split name) is unreachable.  Both scan passes use this expression. -/
def is_bold (font_name : String) (flags : Int) : Except String Bool :=
  if strContains (pyLower font_name) "bold" then .ok true
  else .error intNotIterableMsg

/-- Lines 19-23: the title defaults to `pdf_path.stem`; a truthy metadata
title is stripped and, if still truthy, overrides the default. -/
def resolveMetaTitle (stem : String) (metaTitle : Option String) : String :=
  match metaTitle with
  | none => stem
  | some t => if t ≠ "" then (if pyStrip t ≠ "" then pyStrip t else stem) else stem

/-- Lines 32-36: map a TOC level to a heading label. -/
def mapTocLevel (level : Int) : String :=
  if level = 2 then "H2" else if level ≥ 3 then "H3" else "H1"

/-- `any(char.isalpha() for char in s)` (line 40). -/
def hasAlphaChar (s : String) : Bool := s.data.any Char.isAlpha

/-- Lines 29-45: one TOC triple becomes an entry unless its stripped text is
empty or has no alphabetic character. -/
def tocEntry (e : Int × String × Int) : Option Entry :=
  let clean := pyStrip e.2.1
  if clean ≠ "" && hasAlphaChar clean then
    some { level := mapTocLevel e.1, text := clean, page := e.2.2, bbox := none }
  else none

/-- The whole TOC processed in native order. -/
def tocOutline (toc : List (Int × String × Int)) : List Entry := toc.filterMap tocEntry

/-- `font_styles : {font_name: {size: {"bold": count, "normal": count}}}`, an
insertion-ordered dict of insertion-ordered dicts; modelled as association
lists holding `(size, bold_count, normal_count)` rows. -/
abbrev FontStyles := List (String × List (ℚ × Nat × Nat))

/-- Update the inner `{size: {"bold": _, "normal": _}}` dict (lines 72-75). -/
def updateSizeCounts (sizes : List (ℚ × Nat × Nat)) (size : ℚ) (b : Bool) (n : Nat) :
    List (ℚ × Nat × Nat) :=
  match sizes with
  | [] => [(size, if b then n else 0, if b then 0 else n)]
  | (s, bc, nc) :: rest =>
    if s = size then (s, if b then bc + n else bc, if b then nc else nc + n) :: rest
    else (s, bc, nc) :: updateSizeCounts rest size b n

/-- Update the outer `font_styles` dict (lines 70-75). -/
def updateStyles (styles : FontStyles) (font : String) (size : ℚ) (b : Bool) (n : Nat) :
    FontStyles :=
  match styles with
  | [] => [(font, updateSizeCounts [] size b n)]
  | (f, sizes) :: rest =>
    if f = font then (f, updateSizeCounts sizes size b n) :: rest
    else (f, sizes) :: updateStyles rest font size b n

/-- The statistics loop body over the remaining spans (lines 59-76): for each
span compute the rounded size and `is_bold` (which may raise), add
`len(span["text"])` to the (font, size) bucket and append the size. -/
def statsFold (acc : FontStyles × List ℚ) : List Span → Except String (FontStyles × List ℚ)
  | [] => pure acc
  | s :: rest => do
    let size := round1 s.size
    let b ← is_bold s.font s.flags
    statsFold (updateStyles acc.1 s.font size b s.text.data.length, acc.2 ++ [size]) rest

/-- Lines 59-76 over the whole document. -/
def collectStats (pages : List Page) : Except String (FontStyles × List ℚ) :=
  statsFold ([], []) (allSpans pages)

/-- The count of a size in `all_sizes`: the value `Counter(all_sizes)[x]`. -/
def countOccs (x : ℚ) : List ℚ → Nat
  | [] => 0
  | y :: rest => (if y = x then 1 else 0) + countOccs x rest

/-- The distinct sizes in order of first occurrence: the key order of
`Counter(all_sizes)` (a dict is in insertion order). -/
def firstOccs : List ℚ → List ℚ
  | [] => []
  | x :: rest => x :: (firstOccs rest).filter (fun y => y ≠ x)

/-- The position of the first occurrence of a size in `all_sizes`. -/
def firstIdx (x : ℚ) : List ℚ → Nat
  | [] => 0
  | y :: rest => if y = x then 0 else firstIdx x rest + 1

/-- Scan the remaining distinct sizes keeping the one with the strictly
largest count: the semantics of `Counter(l).most_common(1)[0][0]`, whose
underlying stable selection keeps the first-encountered key on ties. -/
def argmaxCount (l : List ℚ) : List ℚ → ℚ → ℚ
  | [], best => best
  | x :: rest, best =>
    argmaxCount l rest (if countOccs best l < countOccs x l then x else best)

/-- `Counter(l).most_common(1)[0][0]` (lines 82 and 93); callers only use it
on non-empty `l`. -/
def mostCommon (l : List ℚ) : ℚ :=
  match firstOccs l with
  | [] => 0
  | d :: ds => argmaxCount l ds d

/-- One step of the refinement loop of lines 85-90 (`>` is strict). -/
def refineStep (acc : Nat × ℚ) (sd : ℚ × Nat × Nat) : Nat × ℚ :=
  if acc.1 < sd.2.2 then (sd.2.2, sd.1) else acc

/-- Lines 84-90: scan `font_styles` for the largest `"normal"` character
count, starting from `max_normal_chars = 0` and the `Counter` default. -/
def refineBody (styles : FontStyles) (dflt : ℚ) : ℚ :=
  (styles.foldl (fun acc p => p.2.foldl refineStep acc) (0, dflt)).2

/-- Lines 79-93: the body font size estimate. -/
def computeBodySize (font_styles : FontStyles) (all_sizes : List ℚ) : ℚ :=
  let body1 : ℚ :=
    if all_sizes = [] then 0 else refineBody font_styles (mostCommon all_sizes)
  if body1 = 0 ∧ all_sizes ≠ [] then mostCommon all_sizes else body1

/-- `H1_FACTOR = 1.6` (line 102). -/
def H1_FACTOR : ℚ := 1.6
/-- `H2_FACTOR = 1.3` (line 103). -/
def H2_FACTOR : ℚ := 1.3
/-- `H3_FACTOR = 1.1` (line 104). -/
def H3_FACTOR : ℚ := 1.1

/-- `h1_threshold = body_font_size * H1_FACTOR` (line 106). -/
def h1Threshold (body : ℚ) : ℚ := body * H1_FACTOR
/-- `h2_threshold = body_font_size * H2_FACTOR` (line 107). -/
def h2Threshold (body : ℚ) : ℚ := body * H2_FACTOR
/-- `h3_threshold = body_font_size * H3_FACTOR` (line 108). -/
def h3Threshold (body : ℚ) : ℚ := body * H3_FACTOR

/-- Lines 133-138: the noise filter on the stripped text. -/
def rejectedText (text : String) : Bool :=
  text = "" || text.length < 5 || pyIsNumeric text ||
  matchesNumPeriod text || matchesRomanPeriod text ||
  strContains text "G.MAMATHA, CET, CBIT" ||
  ["figure", "table", "formula", "example", "g.mamatha", "source:"].any
    (fun p => pyStartsWith (pyLower text) p)

/-- Lines 133-154: the level assigned to a surviving span, `none` when the
span is filtered out or matches no rule.  Note that the fourth rule (line
149) tests only `font_size > body` and the casing of the text; it does not
test `not is_bold`. -/
def classifyLevel (h1 h2 h3 body : ℚ) (text : String) (font_size : ℚ) (b : Bool) :
    Option String :=
  if rejectedText text then none
  else if font_size ≥ h1 ∧ b then some "H1"
  else if font_size ≥ h2 ∧ b then some "H2"
  else if font_size ≥ h3 ∧ b then some "H3"
  else if font_size > body ∧ (pyIsTitle text ∨ pyIsUpper text) then
    some (if font_size ≥ h2 then "H2" else "H3")
  else none

/-- Lines 126-162: process one span of page index `page_num`; `is_bold` is
evaluated (and may raise) before the noise filter, exactly as in the source;
a produced candidate carries `page_num + 1` and the span's bbox. -/
def classifySpan (h1 h2 h3 body : ℚ) (page_num : Nat) (s : Span) :
    Except String (Option Entry) := do
  let text := pyStrip s.text
  let font_size := round1 s.size
  let b ← is_bold s.font s.flags
  pure ((classifyLevel h1 h2 h3 body text font_size b).map
    (fun lvl => { level := lvl, text := text, page := (page_num : Int) + 1, bbox := some s.bbox }))

/-- The candidates of one page, in span order. -/
def classifySpans (h1 h2 h3 body : ℚ) (page_num : Nat) :
    List Span → Except String (List Entry)
  | [] => pure []
  | s :: rest => do
    let c ← classifySpan h1 h2 h3 body page_num s
    let cs ← classifySpans h1 h2 h3 body page_num rest
    pure (match c with | some e => e :: cs | none => cs)

/-- Lines 118-162: the candidates of all pages, visiting pages in increasing
index order starting at `page_num`. -/
def classifyPages (h1 h2 h3 body : ℚ) : Nat → List Page → Except String (List Entry)
  | _, [] => pure []
  | n, p :: rest => do
    let cs ← classifySpans h1 h2 h3 body n p.spans
    let restCs ← classifyPages h1 h2 h3 body (n + 1) rest
    pure (cs ++ restCs)

/-- The y0 a candidate was sorted by (`x["bbox"][1]`, line 168). -/
def entryY0 (e : Entry) : ℚ :=
  match e.bbox with
  | some b => b.2.1
  | none => 0

/-- The sort order of line 168: the tuple key `(x["page"], x["bbox"][1])`
compared lexicographically. -/
def candLe (a b : Entry) : Prop :=
  a.page < b.page ∨ (a.page = b.page ∧ entryY0 a ≤ entryY0 b)

instance : DecidableRel candLe := fun a b =>
  inferInstanceAs (Decidable (a.page < b.page ∨ (a.page = b.page ∧ entryY0 a ≤ entryY0 b)))

instance : IsTotal Entry candLe := by
  constructor
  intro a b
  rcases lt_trichotomy a.page b.page with h | h | h
  · exact Or.inl (Or.inl h)
  · rcases le_total (entryY0 a) (entryY0 b) with h' | h'
    · exact Or.inl (Or.inr ⟨h, h'⟩)
    · exact Or.inr (Or.inr ⟨h.symm, h'⟩)
  · exact Or.inr (Or.inl h)

instance : IsTrans Entry candLe := by
  constructor
  rintro a b c (hab | ⟨hab, hab'⟩) (hbc | ⟨hbc, hbc'⟩)
  · exact Or.inl (hab.trans hbc)
  · exact Or.inl (hbc ▸ hab)
  · exact Or.inl (hab ▸ hbc)
  · exact Or.inr ⟨hab.trans hbc, hab'.trans hbc'⟩

/-- The deduplication key of line 173: `(level, text.lower(), page)`. -/
def dedupKey (e : Entry) : String × String × Int := (e.level, pyLower e.text, e.page)

/-- Lines 170-176: keep an entry only when its key is not in `seen_entries`. -/
def dedupEntries (seen : List (String × String × Int)) : List Entry → List Entry
  | [] => []
  | e :: rest =>
    if dedupKey e ∈ seen then dedupEntries seen rest
    else e :: dedupEntries (dedupKey e :: seen) rest

/-- The first-occurrence-per-key subsequence of a list: each entry is kept
and every later entry carrying the same `dedupKey` is dropped.  This is the
declarative reading of the `seen_entries` loop, proved equal to
`dedupEntries []` below: of several candidates sharing a key, exactly the
earliest one in the scanned order survives. -/
def keepFirstByKey : List Entry → List Entry
  | [] => []
  | e :: rest =>
    e :: keepFirstByKey (rest.filter (fun x => dedupKey x ≠ dedupKey e))
termination_by l => l.length
decreasing_by
  simp only [List.length_cons]
  exact Nat.lt_succ_of_le (List.length_filter_le _ _)

/-- Lines 179-185: the title refinement, run on the deduplicated entries:
if the title still equals the stem and the first entry is on page 1, a short
H1 first entry becomes the title, then the `"UNIT-IV"` special case applies
to the (possibly updated) title. -/
def refineTitle (stem title : String) (entries : List Entry) : String :=
  match entries with
  | [] => title
  | e0 :: _ =>
    if title = stem ∧ e0.page = 1 then
      let t1 := if e0.level = "H1" ∧ e0.text.length < 50 then e0.text else title
      if strContains (pyUpper t1) "UNIT-IV" ∧ e0.page = 1 then "UNIT-IV" else t1
    else title

/-- Lines 164-185: the whole post-processing block, which runs only when
`temp_outline_candidates` is non-empty (Python's stable `list.sort` is
modelled by the stable `insertionSort`). -/
def heuristicFinish (stem title : String) (cands : List Entry) : String × List Entry :=
  if cands = [] then (title, [])
  else
    let sorted := List.insertionSort candLe cands
    let entries := dedupEntries [] sorted
    (refineTitle stem title entries, entries)

/-- Lines 52-185: the heuristic path (no TOC): statistics, body size, the
early return for `body_font_size == 0.0`, classification, post-processing. -/
def heuristicPath (stem title : String) (pages : List Page) :
    Except String (String × List Entry) := do
  let stats ← collectStats pages
  let body := computeBodySize stats.1 stats.2
  if body = 0 then pure (title, [])
  else do
    let cands ← classifyPages (h1Threshold body) (h2Threshold body) (h3Threshold body)
      body 0 pages
    pure (heuristicFinish stem title cands)

/-- Lines 6-207: `extract_outline_from_pdf`.  The `try/except Exception`
converts any raised error into `errorArtifact` (lines 194-199); a non-empty
TOC short-circuits the heuristics (lines 26-50). -/
def extract_outline_from_pdf (stem : String) (doc : Doc) : Artifact :=
  let title := resolveMetaTitle stem doc.metaTitle
  if doc.toc ≠ [] then
    { title := title, outline := tocOutline doc.toc }
  else
    match heuristicPath stem title doc.pages with
    | .ok (t, entries) => { title := t, outline := entries }
    | .error e => errorArtifact stem e

/-- Lines 210-243: the batch driver processes each found file independently,
writing one artifact per input (stem, document) pair. -/
def process_pdfs (pdf_files : List (String × Doc)) : List (String × Artifact) :=
  pdf_files.map (fun p => (p.1, extract_outline_from_pdf p.1 p.2))

/-! ### Concrete documents used as witnesses and counterexamples -/

/-- A one-page document whose page holds a single type-0 block with one line. -/
def mkPage (spans : List Span) : Page := ⟨[⟨0, [spans]⟩]⟩

/-- A span whose font name has no `"bold"` marker. -/
def arialSpan : Span := ⟨"hello world", "Arial", 12, 0, (0, 0, 1, 1)⟩

/-- A document that reaches the heuristic path and holds `arialSpan`. -/
def errDoc : Doc := ⟨none, [], [mkPage [arialSpan]]⟩

/-- Two ordinary body spans and one bold span slightly larger than body size
(10.5pt against a 10pt body, below the 11pt H3 threshold). -/
def c3Doc : Doc :=
  ⟨none, [],
   [mkPage
     [⟨"just some body words", "Times-Bold", 10, 0, (0, 10, 5, 11)⟩,
      ⟨"more body words here", "Times-Bold", 10, 0, (0, 20, 5, 21)⟩,
      ⟨"Hello World", "Times-Bold", 10.5, 0, (0, 30, 5, 31)⟩]]⟩

/-- Two body spans at 10pt and a bold 18pt heading (above the 16pt H1
threshold); all font names carry the bold marker so no error is raised. -/
def c4Doc : Doc :=
  ⟨none, [],
   [mkPage
     [⟨"plain running text", "Helvetica-Bold", 10, 0, (0, 10, 50, 11)⟩,
      ⟨"other running text", "Helvetica-Bold", 10, 0, (0, 20, 50, 21)⟩,
      ⟨"Overview Heading", "Helvetica-Bold", 18, 0, (0, 5, 50, 17)⟩]]⟩

/-- Like `c4Doc` plus a lower duplicate of the heading differing only in
case, which the deduplication must drop. -/
def c8Doc : Doc :=
  ⟨none, [],
   [mkPage
     [⟨"plain running text", "Helvetica-Bold", 10, 0, (0, 10, 50, 11)⟩,
      ⟨"other running text", "Helvetica-Bold", 10, 0, (0, 20, 50, 21)⟩,
      ⟨"Overview Heading", "Helvetica-Bold", 18, 0, (0, 5, 50, 17)⟩,
      ⟨"overview heading", "Helvetica-Bold", 18, 0, (0, 30, 50, 42)⟩]]⟩

/-- The span of Scenario C: a 20pt bold caption. -/
def figSpan : Span := ⟨"Figure 3: results", "Arial-Bold", 20, 0, (0, 40, 50, 52)⟩

/-- Two body spans and the `Figure` caption span. -/
def c7Doc : Doc :=
  ⟨none, [],
   [mkPage
     [⟨"plain running text", "Helvetica-Bold", 10, 0, (0, 10, 50, 11)⟩,
      ⟨"other running text", "Helvetica-Bold", 10, 0, (0, 20, 50, 21)⟩,
      figSpan]]⟩

/-- Scenario A: a document with the native outline
`[(1, "Introduction", 1), (3, "Details", 2)]` and no usable metadata title. -/
def scenarioADoc : Doc := ⟨none, [(1, "Introduction", 1), (3, "Details", 2)], []⟩

/-- A document with no TOC, no text, and a metadata title. -/
def emptyMetaDoc : Doc := ⟨some "Some Document", [], []⟩

/-! ### Helper lemmas -/

/-- Bind on a successful `Except` value. -/
theorem bind_ok_eq {α β : Type} (x : α) (f : α → Except String β) :
    (Except.ok x >>= f) = f x := rfl

/-- Bind on a failed `Except` value. -/
theorem bind_error_eq {α β : Type} (e : String) (f : α → Except String β) :
    ((Except.error e : Except String α) >>= f) = Except.error e := rfl

/-- The statistics pass raises as soon as it meets a span whose lowercased
font name lacks the substring `"bold"`. -/
theorem statsFold_error :
    ∀ (spans : List Span) (acc : FontStyles × List ℚ),
    (∃ s ∈ spans, strContains (pyLower s.font) "bold" = false) →
    statsFold acc spans = .error intNotIterableMsg := by
  intro spans
  induction spans with
  | nil => rintro acc ⟨s, hs, _⟩; cases hs
  | cons s rest ih =>
    rintro acc ⟨t, ht, hfont⟩
    by_cases hb : strContains (pyLower s.font) "bold" = true
    · have ht' : t ∈ rest := by
        rcases List.mem_cons.mp ht with rfl | h
        · rw [hb] at hfont; cases hfont
        · exact h
      simpa [statsFold, is_bold, hb] using ih _ ⟨t, ht', hfont⟩
    · rw [Bool.not_eq_true] at hb
      simp [statsFold, is_bold, hb, bind_error_eq]

/-- When the heuristic body raises, `extract_outline_from_pdf` returns the
error artifact built from the message. -/
theorem extract_of_heuristic_error (stem : String) (doc : Doc) (e : String)
    (htoc : doc.toc = [])
    (herr : heuristicPath stem (resolveMetaTitle stem doc.metaTitle) doc.pages = .error e) :
    extract_outline_from_pdf stem doc = errorArtifact stem e := by
  simp [extract_outline_from_pdf, htoc, herr]

/-- A failing statistics pass fails the whole heuristic path. -/
theorem heuristicPath_error_of_stats (stem title : String) (pages : List Page) (e : String)
    (h : collectStats pages = .error e) :
    heuristicPath stem title pages = .error e := by
  simp [heuristicPath, h, bind_error_eq]

/-! ### Claim theorems, first batch -/

/-- Claim C1: the spec describes the boldness test as a three-way OR whose
second disjunct consults the style-flag bits; in the code the second
disjunct is the membership test `"b" in span["flags"]` on an `int`, which
raises `TypeError` instead of consulting any bit, so whenever the font name
does not contain `"bold"` the test raises rather than evaluating the
remaining disjuncts. -/
theorem C1_bold_test (font_name : String) (flags : Int)
    (h : strContains (pyLower font_name) "bold" = false) :
    is_bold font_name flags = .error intNotIterableMsg := by
  rw [Bool.eq_false_iff] at h
  simp [is_bold, h]

/-- Witness for C1 at the concrete font `"Arial"` with flags 0. -/
theorem C1_witness :
    strContains (pyLower "Arial") "bold" = false ∧
    is_bold "Arial" 0 = .error intNotIterableMsg :=
  ⟨by decide, C1_bold_test "Arial" 0 (by decide)⟩

/-- Claim C2: on the heuristic path, one span whose lowercased font name
lacks `"bold"` makes the bold test fall through to `"b" in span["flags"]`,
a dynamic type error on the integer flags; the exception is caught at the
document boundary and the error artifact is returned instead of an
inferred outline. -/
theorem C2_nonbold_font_error (stem : String) (doc : Doc)
    (htoc : doc.toc = [])
    (h : ∃ s ∈ allSpans doc.pages, strContains (pyLower s.font) "bold" = false) :
    extract_outline_from_pdf stem doc =
      { title := "Processing Error for " ++ stem
        outline := [{ level := "H1", text := "Error: " ++ intNotIterableMsg,
                      page := 1, bbox := none }] } := by
  have hstats : collectStats doc.pages = .error intNotIterableMsg :=
    statsFold_error _ _ h
  exact extract_of_heuristic_error stem doc _ htoc
    (heuristicPath_error_of_stats _ _ _ _ hstats)

/-- Witness for C2 at the concrete document `errDoc`. -/
theorem C2_witness :
    errDoc.toc = [] ∧
    (∃ s ∈ allSpans errDoc.pages, strContains (pyLower s.font) "bold" = false) ∧
    extract_outline_from_pdf "doc" errDoc =
      { title := "Processing Error for doc"
        outline := [{ level := "H1", text := "Error: " ++ intNotIterableMsg,
                      page := 1, bbox := none }] } :=
  ⟨rfl, ⟨arialSpan, by with_unfolding_all decide, by decide⟩,
   C2_nonbold_font_error "doc" errDoc rfl
     ⟨arialSpan, by with_unfolding_all decide, by decide⟩⟩

/-- Claim C3 (code bug): the spec's fourth classification rule requires the
fragment NOT to be bold, and concludes that a bold fragment below the H3
threshold is never emitted; the code's fourth rule (line 149) omits the
`not is_bold` test, so the bold 10.5pt `"Hello World"` fragment of `c3Doc`
(body 10pt, H3 threshold 11pt) is emitted as an H3 heading. -/
theorem C3_bold_below_h3_emitted :
    (extract_outline_from_pdf "doc" c3Doc).outline =
      [{ level := "H3", text := "Hello World", page := 1, bbox := some (0, 30, 5, 31) }] := by
  with_unfolding_all decide

/-- Claim C9: a heuristic-path failure is converted at the document boundary
into the artifact whose title is the fixed marker followed by the stem and
whose outline is a single H1 entry carrying the message on page 1, and the
batch driver maps documents independently, so one document's artifact never
affects the others. -/
theorem C9_error_containment :
    (∀ (stem : String) (doc : Doc) (e : String), doc.toc = [] →
       heuristicPath stem (resolveMetaTitle stem doc.metaTitle) doc.pages = .error e →
       extract_outline_from_pdf stem doc =
         { title := "Processing Error for " ++ stem
           outline := [{ level := "H1", text := "Error: " ++ e, page := 1, bbox := none }] }) ∧
    (∀ (pre : List (String × Doc)) (d : String × Doc) (post : List (String × Doc)),
       process_pdfs (pre ++ d :: post) =
         process_pdfs pre ++ (d.1, extract_outline_from_pdf d.1 d.2) :: process_pdfs post) := by
  constructor
  · intro stem doc e htoc herr
    exact extract_of_heuristic_error stem doc e htoc herr
  · intro pre d post
    simp [process_pdfs]

/-- Witness for C9 at `errDoc`, placed in the middle of a batch. -/
theorem C9_witness :
    extract_outline_from_pdf "x" errDoc =
      { title := "Processing Error for x"
        outline := [{ level := "H1", text := "Error: " ++ intNotIterableMsg,
                      page := 1, bbox := none }] } ∧
    process_pdfs ([("a", scenarioADoc)] ++ ("x", errDoc) :: [("b", emptyMetaDoc)]) =
      process_pdfs [("a", scenarioADoc)] ++
        ("x", extract_outline_from_pdf "x" errDoc) :: process_pdfs [("b", emptyMetaDoc)] :=
  ⟨C9_error_containment.1 "x" errDoc intNotIterableMsg rfl
     (heuristicPath_error_of_stats _ _ _ _
       (statsFold_error _ _ ⟨arialSpan, by with_unfolding_all decide, by decide⟩)),
   C9_error_containment.2 [("a", scenarioADoc)] ("x", errDoc) [("b", emptyMetaDoc)]⟩

/-- Counterexample to claim C10: a document with no TOC and zero text
fragments but a metadata title is emitted with that metadata title, not
with the filename-derived default `"file"`. -/
theorem C10_cex :
    extract_outline_from_pdf "file" emptyMetaDoc = ⟨"Some Document", []⟩ ∧
    "Some Document" ≠ "file" := by
  constructor
  · with_unfolding_all decide
  · decide

/-- Claim C10 as amended: a document with no native outline and zero text
spans yields an empty outline and the resolved title — the metadata title
when a non-blank one exists, otherwise the filename-derived default — as a
valid non-error result. -/
theorem C10_empty_doc (stem : String) (doc : Doc)
    (htoc : doc.toc = []) (hspans : allSpans doc.pages = []) :
    extract_outline_from_pdf stem doc = ⟨resolveMetaTitle stem doc.metaTitle, []⟩ ∧
    (doc.metaTitle = none → extract_outline_from_pdf stem doc = ⟨stem, []⟩) := by
  have hstats : collectStats doc.pages = .ok ([], []) := by
    unfold collectStats
    rw [hspans]
    rfl
  have hpath : heuristicPath stem (resolveMetaTitle stem doc.metaTitle) doc.pages =
      .ok (resolveMetaTitle stem doc.metaTitle, []) := by
    unfold heuristicPath
    rw [hstats, bind_ok_eq]
    with_unfolding_all rfl
  constructor
  · simp [extract_outline_from_pdf, htoc, hpath]
  · intro hmeta
    have hres : resolveMetaTitle stem doc.metaTitle = stem := by
      rw [hmeta]
      rfl
    rw [hres] at hpath
    simp [extract_outline_from_pdf, htoc, hpath, hres]

/-- Witness for C10 at a metadata-free empty document with stem `"file"`. -/
theorem C10_witness :
    extract_outline_from_pdf "file" (⟨none, [], []⟩ : Doc) = ⟨"file", []⟩ :=
  (C10_empty_doc "file" ⟨none, [], []⟩ rfl rfl).2 rfl

/-- Splitting a list's length by whether `f` keeps or drops each element. -/
theorem filterMap_length_add {α β : Type} (f : α → Option β) :
    ∀ l : List α,
      (l.filterMap f).length + (l.filter (fun a => (f a).isNone)).length = l.length := by
  intro l
  induction l with
  | nil => rfl
  | cons a rest ih =>
    cases hfa : f a with
    | none =>
      simp only [List.filterMap_cons, hfa, List.filter_cons, Option.isNone_none,
        List.length_cons]
      simpa using by omega
    | some b =>
      simp only [List.filterMap_cons, hfa, List.filter_cons, Option.isNone_some,
        List.length_cons]
      simpa using by omega

/-- A TOC triple is dropped exactly when its stripped text has no alphabetic
character (which subsumes emptiness). -/
theorem tocEntry_isNone (e : Int × String × Int) :
    (tocEntry e).isNone = !hasAlphaChar (pyStrip e.2.1) := by
  unfold tocEntry
  by_cases h : hasAlphaChar (pyStrip e.2.1) = true
  · have hne : pyStrip e.2.1 ≠ "" := by
      intro hempty
      rw [hempty] at h
      exact absurd h (by decide)
    simp [h, hne]
  · rw [Bool.not_eq_true] at h
    simp [h]

/-- Claim C5: with a non-empty native outline the document is emitted from
the TOC alone, in native order; level 1 maps to H1, level 2 to H2, every
level at least 3 to H3; a triple is dropped exactly when its stripped text
has no alphabetic character, so the emitted count is the native count minus
the dropped count; and Scenario A evaluates to exactly the expected output
with the title unchanged from metadata/filename resolution. -/
theorem C5_native_outline :
    (∀ (stem : String) (doc : Doc), doc.toc ≠ [] →
       extract_outline_from_pdf stem doc =
         { title := resolveMetaTitle stem doc.metaTitle, outline := tocOutline doc.toc } ∧
       (tocOutline doc.toc).length =
         doc.toc.length - (doc.toc.filter (fun e => !hasAlphaChar (pyStrip e.2.1))).length ∧
       (∀ e ∈ doc.toc, tocEntry e = none ↔ hasAlphaChar (pyStrip e.2.1) = false) ∧
       (∀ e ∈ doc.toc, ∀ en, tocEntry e = some en →
          en.level = mapTocLevel e.1 ∧ en.text = pyStrip e.2.1 ∧ en.page = e.2.2)) ∧
    mapTocLevel 1 = "H1" ∧ mapTocLevel 2 = "H2" ∧
    (∀ d : Int, 3 ≤ d → mapTocLevel d = "H3") ∧
    extract_outline_from_pdf "doc" scenarioADoc =
      { title := "doc"
        outline := [{ level := "H1", text := "Introduction", page := 1, bbox := none },
                    { level := "H3", text := "Details", page := 2, bbox := none }] } := by
  refine ⟨?_, rfl, rfl, ?_, by decide⟩
  · intro stem doc htoc
    refine ⟨?_, ?_, ?_, ?_⟩
    · simp [extract_outline_from_pdf, htoc]
    · have hadd := filterMap_length_add tocEntry doc.toc
      have hcongr : doc.toc.filter (fun e => (tocEntry e).isNone) =
          doc.toc.filter (fun e => !hasAlphaChar (pyStrip e.2.1)) := by
        apply List.filter_congr
        intro e _
        exact tocEntry_isNone e
      rw [hcongr] at hadd
      unfold tocOutline
      omega
    · intro e _
      rw [← Option.isNone_iff_eq_none, tocEntry_isNone, Bool.not_eq_eq_eq_not]
      simp
    · intro e _ en hen
      unfold tocEntry at hen
      by_cases hc : (pyStrip e.2.1 ≠ "" && hasAlphaChar (pyStrip e.2.1)) = true
      · rw [if_pos hc] at hen
        injection hen with hen
        rw [← hen]
        exact ⟨rfl, rfl, rfl⟩
      · rw [if_neg hc] at hen
        cases hen
  · intro d hd
    unfold mapTocLevel
    rw [if_neg (by omega), if_pos (by omega)]

/-- Witness for C5 at Scenario A's document with stem `"d2"`. -/
theorem C5_witness :
    scenarioADoc.toc ≠ [] ∧
    extract_outline_from_pdf "d2" scenarioADoc =
      { title := resolveMetaTitle "d2" scenarioADoc.metaTitle
        outline := tocOutline scenarioADoc.toc } :=
  ⟨by decide, (C5_native_outline.1 "d2" scenarioADoc (by decide)).1⟩

/-- Claim C7: a fragment whose trimmed text satisfies any rejection
condition (empty; shorter than 5 characters; purely numeric; number plus
period; Roman numeral plus period; contains the institutional-noise
literal; or starts case-insensitively with figure/table/formula/example/
g.mamatha/source:) is never classified into a heading candidate, and the
`"Figure 3: results"` fragment of `c7Doc` (20pt bold) is rejected and
absent from the output. -/
theorem C7_rejection_filter :
    (∀ (h1 h2 h3 body : ℚ) (n : Nat) (s : Span),
       (pyStrip s.text = "" ∨ (pyStrip s.text).length < 5 ∨
        pyIsNumeric (pyStrip s.text) = true ∨
        matchesNumPeriod (pyStrip s.text) = true ∨
        matchesRomanPeriod (pyStrip s.text) = true ∨
        strContains (pyStrip s.text) "G.MAMATHA, CET, CBIT" = true ∨
        ∃ p ∈ ["figure", "table", "formula", "example", "g.mamatha", "source:"],
          pyStartsWith (pyLower (pyStrip s.text)) p = true) →
       ∀ e : Entry, classifySpan h1 h2 h3 body n s ≠ .ok (some e)) ∧
    rejectedText "Figure 3: results" = true ∧
    (extract_outline_from_pdf "doc" c7Doc).outline = [] := by
  refine ⟨?_, by decide, by with_unfolding_all decide⟩
  intro h1 h2 h3 body n s hrej e hok
  have hr : rejectedText (pyStrip s.text) = true := by
    unfold rejectedText
    simp only [Bool.or_eq_true, decide_eq_true_eq, List.any_eq_true]
    tauto
  unfold classifySpan at hok
  cases hb : is_bold s.font s.flags with
  | error err =>
    rw [hb, bind_error_eq] at hok
    cases hok
  | ok b =>
    rw [hb, bind_ok_eq] at hok
    have hnone : classifyLevel h1 h2 h3 body (pyStrip s.text) (round1 s.size) b = none := by
      unfold classifyLevel
      rw [if_pos hr]
    rw [hnone] at hok
    cases hok

/-- Witness for C7 at the concrete `figSpan` with body 10pt and thresholds
16/13/11. -/
theorem C7_witness :
    (pyStrip figSpan.text = "" ∨ (pyStrip figSpan.text).length < 5 ∨
     pyIsNumeric (pyStrip figSpan.text) = true ∨
     matchesNumPeriod (pyStrip figSpan.text) = true ∨
     matchesRomanPeriod (pyStrip figSpan.text) = true ∨
     strContains (pyStrip figSpan.text) "G.MAMATHA, CET, CBIT" = true ∨
     ∃ p ∈ ["figure", "table", "formula", "example", "g.mamatha", "source:"],
       pyStartsWith (pyLower (pyStrip figSpan.text)) p = true) ∧
    ∀ e : Entry, classifySpan 16 13 11 10 0 figSpan ≠ .ok (some e) :=
  ⟨by decide, C7_rejection_filter.1 16 13 11 10 0 figSpan (by decide)⟩

/-- A produced candidate carries the 1-based page of its scan and the
span's bounding box. -/
theorem classifySpan_ok_some (h1 h2 h3 body : ℚ) (n : Nat) (s : Span) (e : Entry)
    (h : classifySpan h1 h2 h3 body n s = .ok (some e)) :
    e.page = (n : Int) + 1 ∧ e.bbox = some s.bbox := by
  unfold classifySpan at h
  cases hb : is_bold s.font s.flags with
  | error err => rw [hb, bind_error_eq] at h; exact Except.noConfusion h
  | ok b =>
    rw [hb, bind_ok_eq] at h
    cases hcl : classifyLevel h1 h2 h3 body (pyStrip s.text) (round1 s.size) b with
    | none =>
      rw [hcl] at h
      exact Option.noConfusion (Except.ok.inj h)
    | some lvl =>
      rw [hcl] at h
      have h2 := Option.some.inj (Except.ok.inj h)
      rw [← h2]
      exact ⟨rfl, rfl⟩

/-- Candidates of one page's scan: all on page `n + 1`, each holding some
scanned span's bbox. -/
theorem classifySpans_mem (h1 h2 h3 body : ℚ) (n : Nat) :
    ∀ (spans : List Span) (cs : List Entry),
    classifySpans h1 h2 h3 body n spans = .ok cs →
    ∀ e ∈ cs, e.page = (n : Int) + 1 ∧ ∃ s ∈ spans, e.bbox = some s.bbox := by
  intro spans
  induction spans with
  | nil =>
    intro cs h e he
    have h2 := Except.ok.inj h
    rw [← h2] at he
    cases he
  | cons s rest ih =>
    intro cs h e he
    unfold classifySpans at h
    cases hc : classifySpan h1 h2 h3 body n s with
    | error err => rw [hc, bind_error_eq] at h; exact Except.noConfusion h
    | ok c =>
      rw [hc, bind_ok_eq] at h
      cases hcs : classifySpans h1 h2 h3 body n rest with
      | error err =>
        rw [hcs] at h
        exact Except.noConfusion h
      | ok cs' =>
        rw [hcs] at h
        cases c with
        | none =>
          have heq : cs' = cs := Except.ok.inj h
          rw [← heq] at he
          obtain ⟨hp, s', hs', hb⟩ := ih cs' hcs e he
          exact ⟨hp, s', List.mem_cons_of_mem _ hs', hb⟩
        | some e0 =>
          have heq : e0 :: cs' = cs := Except.ok.inj h
          rw [← heq] at he
          rcases List.mem_cons.mp he with rfl | he'
          · obtain ⟨hp, hb⟩ := classifySpan_ok_some h1 h2 h3 body n s e hc
            exact ⟨hp, s, List.mem_cons_self s rest, hb⟩
          · obtain ⟨hp, s', hs', hb⟩ := ih cs' hcs e he'
            exact ⟨hp, s', List.mem_cons_of_mem _ hs', hb⟩

/-- Candidates of the whole scan starting at page index `n`: pages within
`[n + 1, n + page count]` and a present bbox. -/
theorem classifyPages_mem (h1 h2 h3 body : ℚ) :
    ∀ (pages : List Page) (n : Nat) (cs : List Entry),
    classifyPages h1 h2 h3 body n pages = .ok cs →
    ∀ e ∈ cs, ((n : Int) + 1 ≤ e.page ∧ e.page ≤ (n : Int) + pages.length) ∧
      e.bbox.isSome = true := by
  intro pages
  induction pages with
  | nil =>
    intro n cs h e he
    have h2 := Except.ok.inj h
    rw [← h2] at he
    cases he
  | cons p rest ih =>
    intro n cs h e he
    unfold classifyPages at h
    cases hc : classifySpans h1 h2 h3 body n p.spans with
    | error err => rw [hc, bind_error_eq] at h; exact Except.noConfusion h
    | ok cs1 =>
      rw [hc, bind_ok_eq] at h
      cases hr : classifyPages h1 h2 h3 body (n + 1) rest with
      | error err => rw [hr] at h; exact Except.noConfusion h
      | ok cs2 =>
        rw [hr] at h
        have heq : cs1 ++ cs2 = cs := Except.ok.inj h
        rw [← heq] at he
        have hlen : ((p :: rest).length : Int) = (rest.length : Int) + 1 := by
          simp [List.length_cons]
        rcases List.mem_append.mp he with h1m | h2m
        · obtain ⟨hp, s, _, hb⟩ := classifySpans_mem h1 h2 h3 body n p.spans cs1 hc e h1m
          refine ⟨⟨?_, ?_⟩, by rw [hb]; rfl⟩
          · omega
          · rw [hlen]
            omega
        · obtain ⟨⟨hlo, hhi⟩, hb⟩ := ih (n + 1) cs2 hr e h2m
          rw [hlen]
          push_cast at hlo hhi
          exact ⟨⟨by omega, by omega⟩, hb⟩

/-- The post-processed entries of a successful heuristic run are either
empty or the deduplication of the sorted candidate list. -/
theorem heuristicPath_ok_cases (stem title : String) (pages : List Page) (t : String)
    (entries : List Entry) (h : heuristicPath stem title pages = .ok (t, entries)) :
    entries = [] ∨
    ∃ (body : ℚ) (cands : List Entry),
      classifyPages (h1Threshold body) (h2Threshold body) (h3Threshold body) body 0 pages
        = .ok cands ∧
      entries = dedupEntries [] (List.insertionSort candLe cands) := by
  unfold heuristicPath at h
  cases hstats : collectStats pages with
  | error e => rw [hstats, bind_error_eq] at h; exact Except.noConfusion h
  | ok stats =>
    rw [hstats, bind_ok_eq] at h
    by_cases hbody : computeBodySize stats.1 stats.2 = 0
    · rw [if_pos hbody] at h
      have h2 : (title, []) = (t, entries) := Except.ok.inj h
      left
      exact (Prod.mk.injEq _ _ _ _ ▸ h2).2.symm
    · rw [if_neg hbody] at h
      cases hcl : classifyPages (h1Threshold (computeBodySize stats.1 stats.2))
          (h2Threshold (computeBodySize stats.1 stats.2))
          (h3Threshold (computeBodySize stats.1 stats.2))
          (computeBodySize stats.1 stats.2) 0 pages with
      | error e =>
        rw [hcl] at h
        exact Except.noConfusion h
      | ok cands =>
        rw [hcl] at h
        have h2 : heuristicFinish stem title cands = (t, entries) := Except.ok.inj h
        unfold heuristicFinish at h2
        by_cases hc : cands = []
        · rw [if_pos hc] at h2
          left
          exact (Prod.mk.injEq _ _ _ _ ▸ h2).2.symm
        · rw [if_neg hc] at h2
          right
          exact ⟨computeBodySize stats.1 stats.2, cands, hcl,
            (Prod.mk.injEq _ _ _ _ ▸ h2).2.symm⟩

/-- Deduplication only removes elements. -/
theorem dedupEntries_sublist (l : List Entry) :
    ∀ seen, List.Sublist (dedupEntries seen l) l := by
  induction l with
  | nil => intro seen; simp [dedupEntries]
  | cons e rest ih =>
    intro seen
    unfold dedupEntries
    by_cases h : dedupKey e ∈ seen
    · rw [if_pos h]
      exact (ih seen).cons e
    · rw [if_neg h]
      exact (ih _).cons₂ e

/-- No kept entry has a key that was already seen. -/
theorem dedupEntries_not_seen (l : List Entry) :
    ∀ seen, ∀ e ∈ dedupEntries seen l, dedupKey e ∉ seen := by
  induction l with
  | nil =>
    intro seen e he
    simp [dedupEntries] at he
  | cons e rest ih =>
    intro seen e' he'
    unfold dedupEntries at he'
    by_cases h : dedupKey e ∈ seen
    · rw [if_pos h] at he'
      exact ih seen e' he'
    · rw [if_neg h] at he'
      rcases List.mem_cons.mp he' with rfl | he''
      · exact h
      · have := ih _ e' he''
        intro hk
        exact this (List.mem_cons_of_mem _ hk)

/-- The kept entries have pairwise distinct deduplication keys. -/
theorem dedupEntries_pairwise (l : List Entry) :
    ∀ seen, (dedupEntries seen l).Pairwise (fun a b => dedupKey a ≠ dedupKey b) := by
  induction l with
  | nil => intro seen; simp [dedupEntries]
  | cons e rest ih =>
    intro seen
    unfold dedupEntries
    by_cases h : dedupKey e ∈ seen
    · rw [if_pos h]
      exact ih seen
    · rw [if_neg h]
      refine List.Pairwise.cons ?_ (ih _)
      intro b hb hk
      exact dedupEntries_not_seen rest _ b hb (by rw [← hk]; exact List.mem_cons_self _ _)

/-- Extending the seen keys by one key filters out exactly that key. -/
theorem filter_key_cons (k : String × String × Int) (seen : List (String × String × Int))
    (rest : List Entry) :
    rest.filter (fun x => dedupKey x ∉ k :: seen) =
      (rest.filter (fun x => dedupKey x ∉ seen)).filter (fun x => dedupKey x ≠ k) := by
  rw [List.filter_filter]
  apply List.filter_congr
  intro e _
  by_cases h1 : dedupKey e = k <;> by_cases h2 : dedupKey e ∈ seen <;>
    simp [h1, h2, List.mem_cons]

/-- The `seen_entries` loop keeps exactly the first occurrence of each key:
on the part of the list whose keys are unseen it is the
first-occurrence-per-key subsequence. -/
theorem dedupEntries_eq_keepFirst :
    ∀ (l : List Entry) (seen : List (String × String × Int)),
      dedupEntries seen l = keepFirstByKey (l.filter (fun x => dedupKey x ∉ seen)) := by
  intro l
  induction l with
  | nil =>
    intro seen
    simp [dedupEntries, keepFirstByKey]
  | cons e rest ih =>
    intro seen
    unfold dedupEntries
    by_cases h : dedupKey e ∈ seen
    · rw [if_pos h, List.filter_cons_of_neg (by simpa using h)]
      exact ih seen
    · rw [if_neg h, List.filter_cons_of_pos (by simpa using h), keepFirstByKey,
        ← filter_key_cons, ih (dedupKey e :: seen)]

/-- With `seen_entries` initially empty, deduplication is exactly the
first-occurrence-per-key subsequence of the sorted candidates. -/
theorem dedupEntries_nil_keepFirst (l : List Entry) :
    dedupEntries [] l = keepFirstByKey l := by
  rw [dedupEntries_eq_keepFirst l []]
  have hfil : l.filter (fun x => dedupKey x ∉ ([] : List (String × String × Int))) = l :=
    List.filter_eq_self.mpr (fun a _ => by simp)
  rw [hfil]

/-- Claim C8: on any successful heuristic run, every emitted entry's page
lies in [1, page count]; the emitted sequence is pairwise ordered by
(page, original vertical position), hence non-decreasing in page and, on
equal pages, non-decreasing in position; no two emitted entries share the
(level, lowercased text, page) key; and the emitted sequence is exactly
the first-occurrence-per-key subsequence of the sorted candidate list, so
of several candidates sharing a key only the first in reading order is
kept. -/
theorem C8_order_and_dedup (stem title : String) (pages : List Page) (t : String)
    (entries : List Entry)
    (h : heuristicPath stem title pages = .ok (t, entries)) :
    (∀ e ∈ entries, 1 ≤ e.page ∧ e.page ≤ (pages.length : Int)) ∧
    entries.Pairwise candLe ∧
    entries.Pairwise (fun a b => dedupKey a ≠ dedupKey b) ∧
    (entries = [] ∨
      ∃ (body : ℚ) (cands : List Entry),
        classifyPages (h1Threshold body) (h2Threshold body) (h3Threshold body) body 0 pages
          = .ok cands ∧
        entries = keepFirstByKey (List.insertionSort candLe cands)) := by
  rcases heuristicPath_ok_cases stem title pages t entries h with rfl | ⟨body, cands, hcl, rfl⟩
  · exact ⟨fun e he => absurd he (List.not_mem_nil e), List.Pairwise.nil, List.Pairwise.nil,
      Or.inl rfl⟩
  · have hsub : List.Sublist (dedupEntries [] (List.insertionSort candLe cands))
        (List.insertionSort candLe cands) := dedupEntries_sublist _ []
    refine ⟨?_, ?_, dedupEntries_pairwise _ [],
      Or.inr ⟨body, cands, hcl, dedupEntries_nil_keepFirst _⟩⟩
    · intro e he
      have he2 : e ∈ cands :=
        (List.mem_insertionSort candLe).mp (hsub.subset he)
      obtain ⟨⟨hlo, hhi⟩, _⟩ :=
        classifyPages_mem (h1Threshold body) (h2Threshold body) (h3Threshold body) body
          pages 0 cands hcl e he2
      constructor
      · simpa using hlo
      · simpa using hhi
    · exact List.Pairwise.sublist hsub (List.sorted_insertionSort candLe cands)

/-- Witness for C8 at `c8Doc`, whose run emits one entry after sorting and
deduplicating the case-duplicate heading. -/
theorem C8_witness :
    (∀ e ∈ ([{ level := "H1", text := "Overview Heading", page := 1,
               bbox := some ((0 : ℚ), 5, 50, 17) }] : List Entry),
       1 ≤ e.page ∧ e.page ≤ (c8Doc.pages.length : Int)) ∧
    ([{ level := "H1", text := "Overview Heading", page := 1,
        bbox := some ((0 : ℚ), 5, 50, 17) }] : List Entry).Pairwise candLe ∧
    ([{ level := "H1", text := "Overview Heading", page := 1,
        bbox := some ((0 : ℚ), 5, 50, 17) }] : List Entry).Pairwise
      (fun a b => dedupKey a ≠ dedupKey b) ∧
    (([{ level := "H1", text := "Overview Heading", page := 1,
         bbox := some ((0 : ℚ), 5, 50, 17) }] : List Entry) = [] ∨
      ∃ (body : ℚ) (cands : List Entry),
        classifyPages (h1Threshold body) (h2Threshold body) (h3Threshold body) body 0
          c8Doc.pages = .ok cands ∧
        ([{ level := "H1", text := "Overview Heading", page := 1,
            bbox := some ((0 : ℚ), 5, 50, 17) }] : List Entry) =
          keepFirstByKey (List.insertionSort candLe cands)) :=
  C8_order_and_dedup "doc" "doc" c8Doc.pages "Overview Heading"
    [{ level := "H1", text := "Overview Heading", page := 1,
       bbox := some ((0 : ℚ), 5, 50, 17) }]
    (by with_unfolding_all rfl)

/-- Counterexample to claim C4: the heuristic path of `c4Doc` emits its
sole outline entry still carrying the candidate's `"bbox"` value — the
bounding box is not discarded from the final output. -/
theorem C4_counterexample :
    (extract_outline_from_pdf "doc" c4Doc).outline.map Entry.bbox =
      [some ((0 : ℚ), 5, 50, 17)] := by
  with_unfolding_all decide

/-- Claim C4 as amended: on the native-outline path every emitted entry
consists of exactly level, text and page (no bbox); on the heuristic path
every emitted entry additionally retains the candidate's bounding box,
which is used for ordering but never removed before output. -/
theorem C4_entry_fields (stem : String) (doc : Doc) :
    (doc.toc ≠ [] → ∀ e ∈ (extract_outline_from_pdf stem doc).outline, e.bbox = none) ∧
    (∀ (title t : String) (entries : List Entry),
       heuristicPath stem title doc.pages = .ok (t, entries) →
       ∀ e ∈ entries, e.bbox.isSome = true) := by
  constructor
  · intro htoc e he
    have hout : (extract_outline_from_pdf stem doc).outline = tocOutline doc.toc := by
      simp [extract_outline_from_pdf, htoc]
    rw [hout] at he
    obtain ⟨src, _, hsome⟩ := List.mem_filterMap.mp he
    unfold tocEntry at hsome
    by_cases hc : (pyStrip src.2.1 ≠ "" && hasAlphaChar (pyStrip src.2.1)) = true
    · rw [if_pos hc] at hsome
      have h2 := Option.some.inj hsome
      rw [← h2]
    · rw [if_neg hc] at hsome
      exact Option.noConfusion hsome
  · intro title t entries hp e he
    rcases heuristicPath_ok_cases stem title doc.pages t entries hp with rfl | ⟨body, cands, hcl, rfl⟩
    · cases he
    · have he2 : e ∈ cands :=
        (List.mem_insertionSort candLe).mp ((dedupEntries_sublist _ []).subset he)
      exact (classifyPages_mem (h1Threshold body) (h2Threshold body) (h3Threshold body) body
        doc.pages 0 cands hcl e he2).2

/-- Witness for C4's amended statement: the TOC side at Scenario A's
document, the heuristic side at `c8Doc`. -/
theorem C4_witness :
    (∀ e ∈ (extract_outline_from_pdf "d3" scenarioADoc).outline, e.bbox = none) ∧
    (∀ e ∈ ([{ level := "H1", text := "Overview Heading", page := 1,
               bbox := some ((0 : ℚ), 5, 50, 17) }] : List Entry), e.bbox.isSome = true) :=
  ⟨(C4_entry_fields "d3" scenarioADoc).1 (by decide),
   (C4_entry_fields "doc" c8Doc).2 "doc" "Overview Heading"
     [{ level := "H1", text := "Overview Heading", page := 1,
        bbox := some ((0 : ℚ), 5, 50, 17) }]
     (by with_unfolding_all rfl)⟩

/-- `firstOccs` enumerates exactly the sizes of the list. -/
theorem mem_firstOccs : ∀ (l : List ℚ) (x : ℚ), x ∈ firstOccs l ↔ x ∈ l := by
  intro l
  induction l with
  | nil => intro x; exact Iff.rfl
  | cons y rest ih =>
    intro x
    simp only [firstOccs]
    constructor
    · intro hx
      rcases List.mem_cons.mp hx with rfl | hx'
      · exact List.mem_cons_self _ _
      · exact List.mem_cons_of_mem _ ((ih x).mp (List.mem_filter.mp hx').1)
    · intro hx
      rcases List.mem_cons.mp hx with rfl | hx'
      · exact List.mem_cons_self _ _
      · by_cases hxy : x = y
        · rw [hxy]; exact List.mem_cons_self _ _
        · refine List.mem_cons_of_mem _ (List.mem_filter.mpr ⟨(ih x).mpr hx', ?_⟩)
          simpa using hxy
/-- Along `firstOccs`, first-occurrence positions strictly increase. -/
theorem firstOccs_pairwise (l : List ℚ) :
    (firstOccs l).Pairwise (fun a b => firstIdx a l < firstIdx b l) := by
  induction l with
  | nil => exact List.Pairwise.nil
  | cons y rest ih =>
    simp only [firstOccs]
    refine List.Pairwise.cons ?_ ?_
    · intro b hb
      have hbney : b ≠ y := by simpa using (List.mem_filter.mp hb).2
      simp only [firstIdx]
      rw [if_neg (Ne.symm hbney)]
      simp
    · have hsub := List.filter_sublist (p := fun z => z ≠ y) (firstOccs rest)
      have hp := List.Pairwise.sublist hsub ih
      refine List.Pairwise.imp_of_mem ?_ hp
      intro a b ha hb hab
      have hany : a ≠ y := by simpa using (List.mem_filter.mp ha).2
      have hbny : b ≠ y := by simpa using (List.mem_filter.mp hb).2
      simp only [firstIdx]
      rw [if_neg (Ne.symm hany), if_neg (Ne.symm hbny)]
      omega

/-- If the selection result sits behind strictly-smaller-count entries, its
count dominates the head. -/
theorem split_head_le (l : List ℚ) (best : ℚ) (ds : List ℚ) (r : ℚ) (ds₁ ds₂ : List ℚ)
    (hsplit : best :: ds = ds₁ ++ r :: ds₂)
    (hlt : ∀ z ∈ ds₁, countOccs z l < countOccs r l) :
    countOccs best l ≤ countOccs r l := by
  cases ds₁ with
  | nil =>
    rw [List.nil_append] at hsplit
    injection hsplit with h1 _
    rw [h1]
  | cons h0 t =>
    rw [List.cons_append] at hsplit
    injection hsplit with h1 _
    subst h1
    exact le_of_lt (hlt best (List.mem_cons_self best t))

/-- The selection scan of `argmaxCount`: the result's count dominates every
scanned size, and every size the scan passed over before settling on the
result has a strictly smaller count (the stable, first-on-ties rule). -/
theorem argmaxCount_spec (l : List ℚ) :
    ∀ (ds : List ℚ) (best : ℚ),
      (∀ x ∈ ds, countOccs x l ≤ countOccs (argmaxCount l ds best) l) ∧
      ∃ ds₁ ds₂, best :: ds = ds₁ ++ argmaxCount l ds best :: ds₂ ∧
        ∀ z ∈ ds₁, countOccs z l < countOccs (argmaxCount l ds best) l := by
  intro ds
  induction ds with
  | nil =>
    intro best
    refine ⟨fun x hx => absurd hx (List.not_mem_nil x), [], [], rfl,
      fun z hz => absurd hz (List.not_mem_nil z)⟩
  | cons x rest ih =>
    intro best
    by_cases hcase : countOccs best l < countOccs x l
    · have hrw : argmaxCount l (x :: rest) best = argmaxCount l rest x := by
        simp only [argmaxCount, if_pos hcase]
      obtain ⟨hmax, ds₁, ds₂, hsplit, hlt⟩ := ih x
      rw [hrw]
      have hxr : countOccs x l ≤ countOccs (argmaxCount l rest x) l :=
        split_head_le l x rest _ ds₁ ds₂ hsplit hlt
      constructor
      · intro z hz
        rcases List.mem_cons.mp hz with rfl | hz'
        · exact hxr
        · exact hmax z hz'
      · refine ⟨best :: ds₁, ds₂, ?_, ?_⟩
        · rw [List.cons_append, ← hsplit]
        · intro z hz
          rcases List.mem_cons.mp hz with rfl | hz'
          · exact lt_of_lt_of_le hcase hxr
          · exact hlt z hz'
    · have hrw : argmaxCount l (x :: rest) best = argmaxCount l rest best := by
        simp only [argmaxCount, if_neg hcase]
      obtain ⟨hmax, ds₁, ds₂, hsplit, hlt⟩ := ih best
      rw [hrw]
      have hbr : countOccs best l ≤ countOccs (argmaxCount l rest best) l :=
        split_head_le l best rest _ ds₁ ds₂ hsplit hlt
      have hxb : countOccs x l ≤ countOccs best l := Nat.le_of_not_lt hcase
      constructor
      · intro z hz
        rcases List.mem_cons.mp hz with rfl | hz'
        · exact le_trans hxb hbr
        · exact hmax z hz'
      · cases ds₁ with
        | nil =>
          rw [List.nil_append] at hsplit
          injection hsplit with h1 h2
          refine ⟨[], x :: rest, ?_, fun z hz => absurd hz (List.not_mem_nil z)⟩
          rw [List.nil_append, ← h1]
        | cons h0 t =>
          rw [List.cons_append] at hsplit
          injection hsplit with h1 h2
          subst h1
          have hbest : countOccs best l < countOccs (argmaxCount l rest best) l :=
            hlt best (List.mem_cons_self best t)
          refine ⟨best :: x :: t, ds₂, ?_, ?_⟩
          · rw [List.cons_append, List.cons_append, ← h2]
          · intro z hz
            rcases List.mem_cons.mp hz with rfl | hz'
            · exact hbest
            · rcases List.mem_cons.mp hz' with rfl | hz''
              · exact lt_of_le_of_lt hxb hbest
              · exact hlt z (List.mem_cons_of_mem _ hz'')

/-- `Counter(l).most_common(1)[0][0]` characterised: for non-empty `l` it
is a size of `l` with maximal count, and among the sizes attaining that
count it is the first-encountered one. -/
theorem mostCommon_spec (l : List ℚ) (hl : l ≠ []) :
    mostCommon l ∈ l ∧
    (∀ x ∈ l, countOccs x l ≤ countOccs (mostCommon l) l) ∧
    (∀ x ∈ l, countOccs x l = countOccs (mostCommon l) l →
       firstIdx (mostCommon l) l ≤ firstIdx x l) := by
  cases l with
  | nil => exact absurd rfl hl
  | cons y rest =>
    have hmc : mostCommon (y :: rest) =
        argmaxCount (y :: rest) ((firstOccs rest).filter (fun z => z ≠ y)) y := rfl
    obtain ⟨hmax, ds₁, ds₂, hsplit, hlt⟩ :=
      argmaxCount_spec (y :: rest) ((firstOccs rest).filter (fun z => z ≠ y)) y
    rw [← hmc] at hmax hsplit hlt
    have hsplit' : firstOccs (y :: rest) = ds₁ ++ mostCommon (y :: rest) :: ds₂ := by
      simp only [firstOccs]
      exact hsplit
    refine ⟨?_, ?_, ?_⟩
    · have hmem : mostCommon (y :: rest) ∈ firstOccs (y :: rest) := by
        rw [hsplit']
        exact List.mem_append_right _ (List.mem_cons_self _ _)
      exact (mem_firstOccs _ _).mp hmem
    · intro x hx
      have hx' : x ∈ firstOccs (y :: rest) := (mem_firstOccs _ _).mpr hx
      simp only [firstOccs] at hx'
      rcases List.mem_cons.mp hx' with rfl | hx''
      · exact split_head_le (x :: rest) x _ _ ds₁ ds₂ hsplit hlt
      · exact hmax x hx''
    · intro x hx heq
      have hx' : x ∈ firstOccs (y :: rest) := (mem_firstOccs _ _).mpr hx
      rw [hsplit'] at hx'
      rcases List.mem_append.mp hx' with hx1 | hx2
      · exact absurd heq (Nat.ne_of_lt (hlt x hx1))
      · rcases List.mem_cons.mp hx2 with rfl | hx3
        · exact le_refl _
        · have hpw := firstOccs_pairwise (y :: rest)
          rw [hsplit'] at hpw
          have hpw2 := List.Pairwise.sublist (List.sublist_append_right ds₁ _) hpw
          exact le_of_lt (List.rel_of_pairwise_cons hpw2 hx3)

/-- The refinement loop never moves off an accumulator already holding the
maximal count. -/
theorem foldl_refineStep_absorb (n : Nat) (s : ℚ) :
    ∀ sds : List (ℚ × Nat × Nat), (∀ sd ∈ sds, sd.2.2 ≤ n) →
      sds.foldl refineStep (n, s) = (n, s) := by
  intro sds
  induction sds with
  | nil => intro _; rfl
  | cons sd rest ih =>
    intro hband
    have h1 : refineStep (n, s) sd = (n, s) := by
      unfold refineStep
      rw [if_neg (Nat.not_lt.mpr (hband sd (List.mem_cons_self _ _)))]
    rw [List.foldl_cons, h1]
    exact ih (fun sd' h => hband sd' (List.mem_cons_of_mem _ h))

/-- Outer-loop version of `foldl_refineStep_absorb`. -/
theorem outer_refine_absorb (n : Nat) (s : ℚ) :
    ∀ styles : FontStyles, (∀ p ∈ styles, ∀ sd ∈ p.2, sd.2.2 ≤ n) →
      styles.foldl (fun acc q => q.2.foldl refineStep acc) (n, s) = (n, s) := by
  intro styles
  induction styles with
  | nil => intro _; rfl
  | cons p rest ih =>
    intro hband
    rw [List.foldl_cons]
    rw [foldl_refineStep_absorb n s p.2 (hband p (List.mem_cons_self _ _))]
    exact ih (fun q hq sd hsd => hband q (List.mem_cons_of_mem _ hq) sd hsd)

/-- Entries all below the bound keep the running maximum below it. -/
theorem foldl_refineStep_lt (n : Nat) :
    ∀ (sds : List (ℚ × Nat × Nat)) (acc : Nat × ℚ),
      (∀ sd ∈ sds, sd.2.2 < n) → acc.1 < n →
      (sds.foldl refineStep acc).1 < n := by
  intro sds
  induction sds with
  | nil => intro acc _ hacc; exact hacc
  | cons sd rest ih =>
    intro acc hband hacc
    rw [List.foldl_cons]
    refine ih _ (fun sd' h => hband sd' (List.mem_cons_of_mem _ h)) ?_
    unfold refineStep
    by_cases h : acc.1 < sd.2.2
    · rw [if_pos h]; exact hband sd (List.mem_cons_self _ _)
    · rw [if_neg h]; exact hacc

/-- Once an entry attains the strict maximum `n` (whose size is `s`), the
inner fold ends at `(n, s)`. -/
theorem foldl_refineStep_hit (n : Nat) (s : ℚ) :
    ∀ (sds : List (ℚ × Nat × Nat)) (acc : Nat × ℚ),
      (∀ sd ∈ sds, sd.2.2 ≤ n ∧ (sd.2.2 = n → sd.1 = s)) →
      acc.1 < n → (∃ sd ∈ sds, sd.2.2 = n) →
      sds.foldl refineStep acc = (n, s) := by
  intro sds
  induction sds with
  | nil =>
    rintro acc _ _ ⟨sd, hsd, _⟩
    cases hsd
  | cons sd rest ih =>
    rintro acc hband hacc ⟨sd', hsd', hn⟩
    rw [List.foldl_cons]
    by_cases hhit : sd.2.2 = n
    · have hstep : refineStep acc sd = (n, s) := by
        unfold refineStep
        rw [if_pos (by omega)]
        rw [hhit, (hband sd (List.mem_cons_self _ _)).2 hhit]
      rw [hstep]
      exact foldl_refineStep_absorb n s rest
        (fun sd'' h => (hband sd'' (List.mem_cons_of_mem _ h)).1)
    · have hsd'' : sd' ∈ rest := by
        rcases List.mem_cons.mp hsd' with rfl | h
        · exact absurd hn hhit
        · exact h
      refine ih _ (fun x h => hband x (List.mem_cons_of_mem _ h)) ?_ ⟨sd', hsd'', hn⟩
      unfold refineStep
      by_cases h : acc.1 < sd.2.2
      · rw [if_pos h]
        exact lt_of_le_of_ne (hband sd (List.mem_cons_self _ _)).1 hhit
      · rw [if_neg h]; exact hacc

/-- Outer-loop version of `foldl_refineStep_hit`. -/
theorem outer_refine_hit (n : Nat) (s : ℚ) :
    ∀ (styles : FontStyles) (acc : Nat × ℚ),
      (∀ p ∈ styles, ∀ sd ∈ p.2, sd.2.2 ≤ n ∧ (sd.2.2 = n → sd.1 = s)) →
      acc.1 < n → (∃ p ∈ styles, ∃ sd ∈ p.2, sd.2.2 = n) →
      styles.foldl (fun acc q => q.2.foldl refineStep acc) acc = (n, s) := by
  intro styles
  induction styles with
  | nil =>
    rintro acc _ _ ⟨p, hp, _⟩
    cases hp
  | cons p rest ih =>
    rintro acc hband hacc ⟨p', hp', sd', hsd', hn⟩
    rw [List.foldl_cons]
    by_cases hphit : ∃ sd ∈ p.2, sd.2.2 = n
    · rw [foldl_refineStep_hit n s p.2 acc (hband p (List.mem_cons_self _ _)) hacc hphit]
      exact outer_refine_absorb n s rest
        (fun q hq sd hsd => (hband q (List.mem_cons_of_mem _ hq) sd hsd).1)
    · have hrest : p' ∈ rest := by
        rcases List.mem_cons.mp hp' with rfl | h
        · exact absurd ⟨sd', hsd', hn⟩ hphit
        · exact h
      refine ih _ (fun q hq sd hsd => hband q (List.mem_cons_of_mem _ hq) sd hsd) ?_
        ⟨p', hrest, sd', hsd', hn⟩
      push_neg at hphit
      exact foldl_refineStep_lt n p.2 acc
        (fun sd h =>
          lt_of_le_of_ne (hband p (List.mem_cons_self _ _) sd h).1 (hphit sd h)) hacc

/-- With no normal characters anywhere, the refinement keeps the default. -/
theorem refineBody_allzero (styles : FontStyles) (dflt : ℚ)
    (hz : ∀ p ∈ styles, ∀ sd ∈ p.2, sd.2.2 = 0) :
    refineBody styles dflt = dflt := by
  unfold refineBody
  rw [outer_refine_absorb 0 dflt styles (fun p hp sd hsd => Nat.le_of_eq (hz p hp sd hsd))]

/-- With a strictly maximal positive normal count `n`, attained only at
size `s`, the refinement returns `s`. -/
theorem refineBody_unique_max (styles : FontStyles) (dflt : ℚ) (s : ℚ) (n : Nat)
    (hn : 0 < n)
    (hband : ∀ p ∈ styles, ∀ sd ∈ p.2, sd.2.2 ≤ n ∧ (sd.2.2 = n → sd.1 = s))
    (hhit : ∃ p ∈ styles, ∃ sd ∈ p.2, sd.2.2 = n) :
    refineBody styles dflt = s := by
  unfold refineBody
  rw [outer_refine_hit n s styles (0, dflt) hband hn hhit]

/-- With no positive normal count the body size stays the `Counter`
default. -/
theorem computeBodySize_default (styles : FontStyles) (l : List ℚ) (hl : l ≠ [])
    (hz : ∀ p ∈ styles, ∀ sd ∈ p.2, sd.2.2 = 0) :
    computeBodySize styles l = mostCommon l := by
  simp only [computeBodySize]
  rw [if_neg hl, refineBody_allzero styles (mostCommon l) hz, ite_self]

/-- The strictly maximal positive normal count overrides the default. -/
theorem computeBodySize_refined (styles : FontStyles) (l : List ℚ) (hl : l ≠ [])
    (s : ℚ) (n : Nat) (hn : 0 < n) (hs : s ≠ 0)
    (hband : ∀ p ∈ styles, ∀ sd ∈ p.2, sd.2.2 ≤ n ∧ (sd.2.2 = n → sd.1 = s))
    (hhit : ∃ p ∈ styles, ∃ sd ∈ p.2, sd.2.2 = n) :
    computeBodySize styles l = s := by
  simp only [computeBodySize]
  rw [if_neg hl, refineBody_unique_max styles (mostCommon l) s n hn hband hhit,
    if_neg (fun h => hs h.1)]

/-- Claim C6: the default body size is the most frequent rounded size
(each occurrence counted once, ties broken by first-encountered size); a
(font, size) pair with the single largest positive normal-character count
overrides the default with its size; and the three thresholds are exactly
body times 1.6, 1.3 and 1.1. -/
theorem C6_body_and_thresholds :
    (∀ l : List ℚ, l ≠ [] →
       mostCommon l ∈ l ∧
       (∀ x ∈ l, countOccs x l ≤ countOccs (mostCommon l) l) ∧
       (∀ x ∈ l, countOccs x l = countOccs (mostCommon l) l →
          firstIdx (mostCommon l) l ≤ firstIdx x l)) ∧
    (∀ (styles : FontStyles) (l : List ℚ), l ≠ [] →
       (∀ p ∈ styles, ∀ sd ∈ p.2, sd.2.2 = 0) →
       computeBodySize styles l = mostCommon l) ∧
    (∀ (styles : FontStyles) (l : List ℚ) (s : ℚ) (n : Nat), l ≠ [] →
       0 < n → s ≠ 0 →
       (∀ p ∈ styles, ∀ sd ∈ p.2, sd.2.2 ≤ n ∧ (sd.2.2 = n → sd.1 = s)) →
       (∃ p ∈ styles, ∃ sd ∈ p.2, sd.2.2 = n) →
       computeBodySize styles l = s) ∧
    (∀ body : ℚ, h1Threshold body = body * (8 / 5) ∧
       h2Threshold body = body * (13 / 10) ∧ h3Threshold body = body * (11 / 10)) := by
  refine ⟨mostCommon_spec, computeBodySize_default,
    fun styles l s n hl hn hs hband hhit =>
      computeBodySize_refined styles l hl s n hn hs hband hhit, ?_⟩
  intro body
  refine ⟨?_, ?_, ?_⟩
  · show body * H1_FACTOR = body * (8 / 5)
    norm_num [H1_FACTOR]
  · show body * H2_FACTOR = body * (13 / 10)
    norm_num [H2_FACTOR]
  · show body * H3_FACTOR = body * (11 / 10)
    norm_num [H3_FACTOR]

/-- Witness for C6: a statistics table whose largest normal count (200)
sits at size 10 overrides the most common size 12. -/
theorem C6_witness :
    computeBodySize [("Arial", [(12, 0, 100)]), ("Times", [(10, 5, 200)])]
      [12, 12, 10] = 10 :=
  C6_body_and_thresholds.2.2.1 [("Arial", [(12, 0, 100)]), ("Times", [(10, 5, 200)])]
    [12, 12, 10] 10 200 (by with_unfolding_all decide) (by decide)
    (by with_unfolding_all decide) (by with_unfolding_all decide)
    (by with_unfolding_all decide)
